import Mathlib

/-!
Shallow embedding of the ffmpegx repository (TypeScript) in Lean 4.

The embedding follows the source files:
- `src/src/FfmpegCommand.ts` — the command builder (`FfmpegCommand`);
- `src/packages/core/src/execute.ts` — progress-line parsing (`parseProgress`)
  and the subprocess close handler of `FfmpegX.execute`;
- the frame extractor (`VideoFrameExtractor`) — index sampling
  (`calculateFrameIndices`), the dual-seek computation, and batch assembly.

JavaScript numbers are modelled as exact rationals (`ℚ`); `parseInt` /
`parseFloat` results are `Option` values with `none` standing for `NaN`.
JavaScript truthiness on optional strings (`null` and `""` are falsy) is
modelled explicitly by `jsTruthy`.
-/

namespace FfmpegX

/-- Builder state of `FfmpegCommand` (fields of the TypeScript class):
ordered global/input/output argument token lists plus the optional input and
output file paths (`null` modelled as `none`). -/
structure FfmpegCommand where
  globalArgs : List String
  inputArgs : List String
  outputArgs : List String
  inputFile : Option String
  outputFile : Option String
deriving DecidableEq, Repr

/-- The freshly constructed builder: all lists empty, no files set. -/
def FfmpegCommand.new : FfmpegCommand :=
  { globalArgs := [], inputArgs := [], outputArgs := [], inputFile := none, outputFile := none }

/-- `operators.input`: sets the input file (last write wins). -/
def FfmpegCommand.input (c : FfmpegCommand) (file : String) : FfmpegCommand :=
  { c with inputFile := some file }

/-- `operators.output`: sets the output file (last write wins). -/
def FfmpegCommand.output (c : FfmpegCommand) (file : String) : FfmpegCommand :=
  { c with outputFile := some file }

/-- `operators.addGlobalOption(key, value?)`: appends the key and, when a
value is given, its string form. Values arrive already stringified. -/
def FfmpegCommand.addGlobalOption (c : FfmpegCommand) (key : String)
    (value : Option String) : FfmpegCommand :=
  { c with globalArgs := c.globalArgs ++ key :: value.toList }

/-- `operators.addInputOption(key, value?)`. -/
def FfmpegCommand.addInputOption (c : FfmpegCommand) (key : String)
    (value : Option String) : FfmpegCommand :=
  { c with inputArgs := c.inputArgs ++ key :: value.toList }

/-- `operators.addOutputOption(key, value?)`. -/
def FfmpegCommand.addOutputOption (c : FfmpegCommand) (key : String)
    (value : Option String) : FfmpegCommand :=
  { c with outputArgs := c.outputArgs ++ key :: value.toList }

/-- `operators.outputFormat(format)`: sugar for `addOutputOption("-f", format)`. -/
def FfmpegCommand.outputFormat (c : FfmpegCommand) (format : String) : FfmpegCommand :=
  c.addOutputOption "-f" (some format)

/-- JavaScript truthiness of a `string | null` value: `null` and the empty
string are falsy, every other string is truthy. -/
def jsTruthy : Option String → Bool
  | none => false
  | some s => s ≠ ""

/-- Render-time contract violations of `buildArgs` (thrown as `Error` in the
source; the design taxonomy calls them `ConfigurationError`). -/
inductive RenderError where
  | configurationError (msg : String)
deriving DecidableEq, Repr

/-- The scan in `buildArgs` for a format-selection flag:
`outputArgs.some((arg, i) => arg === "-f" && i < outputArgs.length - 1)`. -/
def hasFormat (outputArgs : List String) : Bool :=
  (List.range outputArgs.length).any fun i =>
    outputArgs[i]? == some "-f" && decide (i < outputArgs.length - 1)

/-- `FfmpegCommand.buildArgs` (the `finalArgs` getter): fails when the input
file is falsy; otherwise concatenates global args, input args, `-i` + input
path and output args, then appends the output file when truthy, else checks
for a format flag and appends the stdout sentinel `pipe:1`. -/
def buildArgs (c : FfmpegCommand) : Except RenderError (List String) :=
  if jsTruthy c.inputFile = false then
    .error (.configurationError
      "Input file not specified. Please call .setInput() or use a command builder to configure.")
  else
    let finalArgs := c.globalArgs ++ c.inputArgs ++ "-i" :: c.inputFile.getD "" :: c.outputArgs
    if jsTruthy c.outputFile then
      .ok (finalArgs ++ [c.outputFile.getD ""])
    else if hasFormat c.outputArgs then
      .ok (finalArgs ++ ["pipe:1"])
    else
      .error (.configurationError "Output format is required when no output file is specified.")

/-- The rendered output target: the output file when truthy, else the stdout
sentinel `pipe:1`. -/
def renderTarget (c : FfmpegCommand) : String :=
  if jsTruthy c.outputFile then c.outputFile.getD "" else "pipe:1"

/-- The builder state of the spec's concrete example: input `in.mp4`, output
args `["-vframes","1"]`, then format flag `-f image2pipe`, no output file. -/
def exampleCommand : FfmpegCommand :=
  (((FfmpegCommand.new.input "in.mp4").addOutputOption "-vframes" (some "1")).outputFormat
    "image2pipe")

end FfmpegX

namespace FfmpegX

theorem buildArgs_ok_iff (c : FfmpegCommand) :
    (∃ args, buildArgs c = .ok args) ↔
      (jsTruthy c.inputFile = true ∧
        (jsTruthy c.outputFile = true ∨ hasFormat c.outputArgs = true)) := by
  unfold buildArgs
  rcases h1 : jsTruthy c.inputFile with _ | _ <;>
    rcases h2 : jsTruthy c.outputFile with _ | _ <;>
      rcases h3 : hasFormat c.outputArgs with _ | _ <;>
        simp

theorem buildArgs_error_shape (c : FfmpegCommand) (e : RenderError)
    (h : buildArgs c = .error e) : ∃ msg, e = .configurationError msg := by
  cases e with
  | configurationError msg => exact ⟨msg, rfl⟩

end FfmpegX

/-- **C1.** Rendering fails exactly when the input file is unset (falsy), or
the input file is set but the output file is unset (falsy) and the output
argument list has no format-selection flag; and every failure is a
`ConfigurationError`. -/
theorem C1_render_failure_characterization :
    (∀ c : FfmpegX.FfmpegCommand,
      (∃ e, FfmpegX.buildArgs c = .error e) ↔
        (FfmpegX.jsTruthy c.inputFile = false ∨
          (FfmpegX.jsTruthy c.inputFile = true ∧ FfmpegX.jsTruthy c.outputFile = false ∧
            FfmpegX.hasFormat c.outputArgs = false))) ∧
    (∀ (c : FfmpegX.FfmpegCommand) (e : FfmpegX.RenderError),
      FfmpegX.buildArgs c = .error e →
        ∃ msg, e = FfmpegX.RenderError.configurationError msg) := by
  constructor
  · intro c
    unfold FfmpegX.buildArgs
    rcases h1 : FfmpegX.jsTruthy c.inputFile with _ | _ <;>
      rcases h2 : FfmpegX.jsTruthy c.outputFile with _ | _ <;>
        rcases h3 : FfmpegX.hasFormat c.outputArgs with _ | _ <;>
          simp
  · exact FfmpegX.buildArgs_error_shape

/-- Witness for C1: the fresh builder (no input set) fails, and its error is a
`ConfigurationError`. -/
theorem C1_render_failure_characterization_witness :
    ∃ msg, (FfmpegX.RenderError.configurationError
        "Input file not specified. Please call .setInput() or use a command builder to configure.")
      = FfmpegX.RenderError.configurationError msg :=
  C1_render_failure_characterization.2 FfmpegX.FfmpegCommand.new
    (FfmpegX.RenderError.configurationError
      "Input file not specified. Please call .setInput() or use a command builder to configure.")
    rfl

/-- **C2.** Every accepted rendering is the concatenation of global args,
input args, `-i` + input path, output args, and the output target (output
file, else the stdout sentinel `pipe:1`); and the spec's concrete example
renders to a list ending in `-i in.mp4 -vframes 1 -f image2pipe pipe:1`. -/
theorem C2_render_concatenation :
    (∀ (c : FfmpegX.FfmpegCommand) (f : String) (args : List String),
      c.inputFile = some f → FfmpegX.buildArgs c = .ok args →
        args = c.globalArgs ++ c.inputArgs ++ "-i" :: f :: c.outputArgs ++
          [FfmpegX.renderTarget c]) ∧
    (∃ args, FfmpegX.buildArgs FfmpegX.exampleCommand = .ok args ∧
      ["-i", "in.mp4", "-vframes", "1", "-f", "image2pipe", "pipe:1"].IsSuffix args) := by
  constructor
  · intro c f args hf hok
    unfold FfmpegX.buildArgs at hok
    rcases h1 : FfmpegX.jsTruthy c.inputFile with _ | _ <;> rw [h1] at hok
    · simp at hok
    · unfold FfmpegX.renderTarget
      rcases h2 : FfmpegX.jsTruthy c.outputFile with _ | _ <;> rw [h2] at hok <;> simp at hok
      · rcases h3 : FfmpegX.hasFormat c.outputArgs with _ | _ <;> rw [h3] at hok <;>
          simp at hok
        simp [← hok, hf, h2]
      · simp [← hok, hf, h2]
  · refine ⟨["-i", "in.mp4", "-vframes", "1", "-f", "image2pipe", "pipe:1"], rfl, ?_⟩
    exact ⟨[], rfl⟩

/-- Witness for C2: the universal part applied to the concrete example
command. -/
theorem C2_render_concatenation_witness :
    ["-i", "in.mp4", "-vframes", "1", "-f", "image2pipe", "pipe:1"] =
      FfmpegX.exampleCommand.globalArgs ++ FfmpegX.exampleCommand.inputArgs ++
        "-i" :: "in.mp4" :: FfmpegX.exampleCommand.outputArgs ++
          [FfmpegX.renderTarget FfmpegX.exampleCommand] :=
  C2_render_concatenation.1 FfmpegX.exampleCommand "in.mp4"
    ["-i", "in.mp4", "-vframes", "1", "-f", "image2pipe", "pipe:1"] rfl (rfl)

/-- **C9.** With a (truthy) input file, no output file, and `-f` occurring
only as the last output argument (no occurrence at an index before the last),
rendering fails with a `ConfigurationError` instead of appending the stdout
sentinel. -/
theorem C9_trailing_format_flag_rejected :
    ∀ (c : FfmpegX.FfmpegCommand) (f : String),
      c.inputFile = some f → f ≠ "" → c.outputFile = none →
      c.outputArgs.getLast? = some "-f" →
      (∀ i, i < c.outputArgs.length - 1 → c.outputArgs[i]? ≠ some "-f") →
      FfmpegX.buildArgs c =
        .error (.configurationError "Output format is required when no output file is specified.") := by
  intro c f hf hfne hout hlast hnot
  have hformat : FfmpegX.hasFormat c.outputArgs = false := by
    rw [FfmpegX.hasFormat]
    rw [List.any_eq_false]
    intro i hi
    rw [List.mem_range] at hi
    rcases Nat.lt_or_ge i (c.outputArgs.length - 1) with hlt | hge
    · simp [hnot i hlt]
    · have : ¬ (i < c.outputArgs.length - 1) := Nat.not_lt.mpr hge
      simp [this]
  have h1 : FfmpegX.jsTruthy c.inputFile = true := by
    rw [hf]; simp [FfmpegX.jsTruthy, hfne]
  have h2 : FfmpegX.jsTruthy c.outputFile = false := by
    rw [hout]; rfl
  unfold FfmpegX.buildArgs
  rw [h1, h2, hformat]
  simp

/-- Witness for C9: input `in.mp4`, output args `["-vframes","1","-f"]`
(format flag added without a value), no output file — rendering fails. -/
theorem C9_trailing_format_flag_rejected_witness :
    FfmpegX.buildArgs
        ((FfmpegX.FfmpegCommand.new.input "in.mp4").addOutputOption "-vframes"
            (some "1") |>.addOutputOption "-f" none) =
      .error (.configurationError "Output format is required when no output file is specified.") :=
  C9_trailing_format_flag_rejected
    ((FfmpegX.FfmpegCommand.new.input "in.mp4").addOutputOption "-vframes"
        (some "1") |>.addOutputOption "-f" none) "in.mp4" rfl (by decide) rfl (by decide)
    (by decide)

namespace FfmpegX

/-- Elements of the list not yet seen, in order of first occurrence: the
traversal a JavaScript `Set` performs on insertion. -/
def jsSetDedupAux {α : Type} [DecidableEq α] (seen : List α) : List α → List α
  | [] => []
  | a :: l => if a ∈ seen then jsSetDedupAux seen l else a :: jsSetDedupAux (a :: seen) l

/-- First-occurrence deduplication, as performed by `[...new Set(xs)]` in the
source (JavaScript `Set` iteration preserves first-insertion order). -/
def jsSetDedup {α : Type} [DecidableEq α] (l : List α) : List α :=
  jsSetDedupAux [] l

theorem mem_jsSetDedupAux {α : Type} [DecidableEq α] (l : List α) :
    ∀ (seen : List α) (x : α), x ∈ jsSetDedupAux seen l ↔ (x ∈ l ∧ x ∉ seen) := by
  induction l with
  | nil => simp [jsSetDedupAux]
  | cons a l ih =>
    intro seen x
    rw [jsSetDedupAux]
    by_cases ha : a ∈ seen
    · rw [if_pos ha, ih seen x, List.mem_cons]
      constructor
      · exact fun ⟨hl, hs⟩ => ⟨Or.inr hl, hs⟩
      · rintro ⟨hax | hl, hs⟩
        · exact absurd (hax ▸ ha) hs
        · exact ⟨hl, hs⟩
    · rw [if_neg ha, List.mem_cons, ih (a :: seen) x, List.mem_cons, List.mem_cons]
      by_cases hx : x = a
      · subst hx
        simp [ha]
      · simp [hx]

theorem mem_jsSetDedup {α : Type} [DecidableEq α] (l : List α) (x : α) :
    x ∈ jsSetDedup l ↔ x ∈ l := by
  rw [jsSetDedup, mem_jsSetDedupAux]
  simp

theorem jsSetDedupAux_length_le {α : Type} [DecidableEq α] (l : List α) :
    ∀ seen : List α, (jsSetDedupAux seen l).length ≤ l.length := by
  induction l with
  | nil => simp [jsSetDedupAux]
  | cons a l ih =>
    intro seen
    rw [jsSetDedupAux]
    by_cases ha : a ∈ seen
    · rw [if_pos ha]
      exact le_trans (ih seen) (Nat.le_succ _)
    · rw [if_neg ha, List.length_cons, List.length_cons]
      exact Nat.succ_le_succ (ih (a :: seen))

theorem jsSetDedup_length_le {α : Type} [DecidableEq α] (l : List α) :
    (jsSetDedup l).length ≤ l.length :=
  jsSetDedupAux_length_le l []

theorem jsSetDedupAux_nodup {α : Type} [DecidableEq α] (l : List α) :
    ∀ seen : List α, (jsSetDedupAux seen l).Nodup := by
  induction l with
  | nil => intro seen; simp [jsSetDedupAux]
  | cons a l ih =>
    intro seen
    rw [jsSetDedupAux]
    by_cases ha : a ∈ seen
    · rw [if_pos ha]
      exact ih seen
    · rw [if_neg ha]
      refine List.nodup_cons.mpr ⟨?_, ih (a :: seen)⟩
      rw [mem_jsSetDedupAux]
      rintro ⟨-, hmem⟩
      exact hmem (List.mem_cons_self a seen)

theorem jsSetDedup_nodup {α : Type} [DecidableEq α] (l : List α) :
    (jsSetDedup l).Nodup :=
  jsSetDedupAux_nodup l []

theorem jsSetDedupAux_eq_self {α : Type} [DecidableEq α] (l : List α) :
    ∀ seen : List α, l.Nodup → (∀ x ∈ l, x ∉ seen) → jsSetDedupAux seen l = l := by
  induction l with
  | nil => intro seen _ _; rfl
  | cons a l ih =>
    intro seen hnd hdisj
    rcases List.nodup_cons.mp hnd with ⟨hal, hl⟩
    rw [jsSetDedupAux, if_neg (hdisj a (List.mem_cons_self a l))]
    rw [ih (a :: seen) hl]
    intro x hx
    rw [List.mem_cons]
    rintro (hxa | hxs)
    · exact hal (hxa ▸ hx)
    · exact hdisj x (List.mem_cons_of_mem a hx) hxs

theorem jsSetDedup_eq_self {α : Type} [DecidableEq α] (l : List α) (h : l.Nodup) :
    jsSetDedup l = l :=
  jsSetDedupAux_eq_self l [] h (by simp)

/-- Per-extractor derived facts populated by `VideoFrameExtractor.initialize`:
total frame count, source frames per second, and the keyframe-interval
estimate in seconds. -/
structure ExtractorState where
  totalFrames : ℕ
  fps : ℚ
  keyframeIntervalSeconds : ℚ

/-- The `ExtractFramesOptions` record of `extract`.  The requested total
count is modelled as a natural number and the requested rate as a rational,
matching the integer / positive-rate quantifications of the claims. -/
structure ExtractFramesOptions where
  totalFrames : Option ℕ
  fps : Option ℚ

/-- JavaScript truthiness of an optional count (`undefined` and `0` falsy). -/
def numTruthyNat : Option ℕ → Bool
  | none => false
  | some n => n ≠ 0

/-- JavaScript truthiness of an optional rate (`undefined` and `0` falsy). -/
def numTruthyQ : Option ℚ → Bool
  | none => false
  | some q => q ≠ 0

/-- The by-total-count branch of `calculateFrameIndices`:
`framesToExtract = Math.min(requested, totalFrames)`,
`interval = totalFrames / framesToExtract`, and index
`Math.floor(i * interval + interval / 2)` for `i < framesToExtract`. -/
def byTotalIndices (totalFrames requested : ℕ) : List ℤ :=
  let framesToExtract := min requested totalFrames
  let interval : ℚ := totalFrames / framesToExtract
  (List.range framesToExtract).map fun (i : ℕ) => ⌊(i : ℚ) * interval + interval / 2⌋

/-- The by-rate branch of `calculateFrameIndices`:
`interval = sourceFps / targetFps` and index `Math.floor(i * interval)` for
successive `i` while `i * interval < totalFrames`.  The source's `for` loop
terminates exactly when the interval is positive or the frame count is zero;
the positivity guard makes the Lean function total, and it agrees with the
source on every terminating run. -/
def byRateIndices (totalFrames : ℕ) (sourceFps targetFps : ℚ) : List ℤ :=
  let interval := sourceFps / targetFps
  if 0 < interval then
    (List.range (⌈(totalFrames : ℚ) / interval⌉.toNat)).map fun (i : ℕ) => ⌊(i : ℚ) * interval⌋
  else []

/-- `VideoFrameExtractor.calculateFrameIndices`: selects the branch by the
truthiness of the options (`totalFrames` first), then deduplicates via
`[...new Set(frameIndices)]`. -/
def calculateFrameIndices (st : ExtractorState) (opts : ExtractFramesOptions) : List ℤ :=
  let frameIndices :=
    if numTruthyNat opts.totalFrames then
      byTotalIndices st.totalFrames (opts.totalFrames.getD 0)
    else if numTruthyQ opts.fps then
      byRateIndices st.totalFrames st.fps (opts.fps.getD 0)
    else []
  jsSetDedup frameIndices

/-- The coarse input-side seek of `VideoFrameExtractor.extract`:
`Math.max(0, targetTimestamp - keyframeIntervalSeconds)`. -/
def coarseSeekTime (targetTimestamp keyframeInterval : ℚ) : ℚ :=
  max 0 (targetTimestamp - keyframeInterval)

/-- The precise output-side seek of `VideoFrameExtractor.extract`:
`targetTimestamp - coarseSeekTime`. -/
def preciseSeekOffset (targetTimestamp keyframeInterval : ℚ) : ℚ :=
  targetTimestamp - coarseSeekTime targetTimestamp keyframeInterval

/-- When at least `totalFrames` frames are requested, the by-total-count
branch computes interval `1` and returns every index `0, …, totalFrames-1`. -/
theorem byTotalIndices_full (T req : ℕ) (hT : 0 < T) (hreq : T ≤ req) :
    byTotalIndices T req = (List.range T).map (fun (i : ℕ) => (i : ℤ)) := by
  have hTne : (T : ℚ) ≠ 0 := by exact_mod_cast Nat.pos_iff_ne_zero.mp hT
  have hmin : min req T = T := min_eq_right hreq
  unfold byTotalIndices
  rw [hmin]
  apply List.map_congr_left
  intro i _
  rw [div_self hTne]
  rw [Int.floor_eq_iff]
  constructor
  · push_cast
    linarith
  · push_cast
    linarith

/-- Every index produced by the by-total-count branch lies in
`[0, totalFrames)`. -/
theorem byTotalIndices_mem_bounds (T req : ℕ) (hT : 0 < T) (hreq : req ≠ 0) :
    ∀ x ∈ byTotalIndices T req, 0 ≤ x ∧ x < (T : ℤ) := by
  intro x hx
  unfold byTotalIndices at hx
  simp only [List.mem_map, List.mem_range] at hx
  obtain ⟨i, hi, rfl⟩ := hx
  have hmin : 0 < min req T := lt_min (Nat.pos_of_ne_zero hreq) hT
  have hminQ : (0 : ℚ) < (min req T : ℚ) := by exact_mod_cast hmin
  have hq : (0 : ℚ) < (T : ℚ) / (min req T : ℚ) := by
    apply div_pos _ hminQ
    exact_mod_cast hT
  constructor
  · apply Int.le_floor.mpr
    push_cast
    positivity
  · apply Int.floor_lt.mpr
    push_cast
    have hi' : (i : ℚ) ≤ (min req T : ℚ) - 1 := by
      have : (i : ℚ) + 1 ≤ (min req T : ℚ) := by exact_mod_cast hi
      linarith
    have h1 : (i : ℚ) * ((T : ℚ) / (min req T : ℚ)) ≤
        ((min req T : ℚ) - 1) * ((T : ℚ) / (min req T : ℚ)) :=
      mul_le_mul_of_nonneg_right hi' (le_of_lt hq)
    have h2 : ((min req T : ℚ)) * ((T : ℚ) / (min req T : ℚ)) = (T : ℚ) := by
      rw [mul_comm]
      exact div_mul_cancel₀ _ (ne_of_gt hminQ)
    have h3 : ((min req T : ℚ) - 1) * ((T : ℚ) / (min req T : ℚ)) =
        (T : ℚ) - (T : ℚ) / (min req T : ℚ) := by
      rw [sub_mul, one_mul, h2]
    linarith

end FfmpegX

/-- **C5.** Sampling by a total count `n ≤ totalFrameCount` (for an
initialized extractor, `totalFrameCount > 0`) returns at most `n` distinct
frame indices, all within `[0, totalFrameCount)`; for `n = totalFrameCount`
the deduplicated result has exactly `totalFrameCount` entries. -/
theorem C5_sample_by_total_count (st : FfmpegX.ExtractorState) (n : ℕ)
    (hT : 0 < st.totalFrames) (hn : n ≤ st.totalFrames) :
    (FfmpegX.calculateFrameIndices st ⟨some n, none⟩).length ≤ n ∧
    (FfmpegX.calculateFrameIndices st ⟨some n, none⟩).Nodup ∧
    (∀ x ∈ FfmpegX.calculateFrameIndices st ⟨some n, none⟩,
      0 ≤ x ∧ x < (st.totalFrames : ℤ)) ∧
    (n = st.totalFrames →
      (FfmpegX.calculateFrameIndices st ⟨some n, none⟩).length = st.totalFrames) := by
  by_cases hn0 : n = 0
  · subst hn0
    have hcalc : FfmpegX.calculateFrameIndices st ⟨some 0, none⟩ = [] := by
      simp [FfmpegX.calculateFrameIndices, FfmpegX.numTruthyNat, FfmpegX.numTruthyQ,
        FfmpegX.jsSetDedup, FfmpegX.jsSetDedupAux]
    rw [hcalc]
    refine ⟨by simp, by simp, by simp, ?_⟩
    intro h0
    omega
  · have hcalc : FfmpegX.calculateFrameIndices st ⟨some n, none⟩ =
        FfmpegX.jsSetDedup (FfmpegX.byTotalIndices st.totalFrames n) := by
      simp [FfmpegX.calculateFrameIndices, FfmpegX.numTruthyNat, hn0]
    rw [hcalc]
    refine ⟨?_, FfmpegX.jsSetDedup_nodup _, ?_, ?_⟩
    · calc (FfmpegX.jsSetDedup (FfmpegX.byTotalIndices st.totalFrames n)).length
          ≤ (FfmpegX.byTotalIndices st.totalFrames n).length :=
            FfmpegX.jsSetDedup_length_le _
        _ = n := by
            unfold FfmpegX.byTotalIndices
            simp [min_eq_left hn]
    · intro x hx
      rw [FfmpegX.mem_jsSetDedup] at hx
      exact FfmpegX.byTotalIndices_mem_bounds st.totalFrames n hT hn0 x hx
    · intro hEq
      have hnodup : ((List.range st.totalFrames).map (fun (i : ℕ) => (i : ℤ))).Nodup :=
        List.Nodup.map (fun a b hab => by exact_mod_cast hab) (List.nodup_range _)
      rw [FfmpegX.byTotalIndices_full st.totalFrames n hT (le_of_eq hEq.symm),
        FfmpegX.jsSetDedup_eq_self _ hnodup, List.length_map, List.length_range]

/-- Witness for C5: an extractor with 4 total frames, requesting 2 frames. -/
theorem C5_sample_by_total_count_witness :
    (FfmpegX.calculateFrameIndices ⟨4, 1, 5⟩ ⟨some 2, none⟩).length ≤ 2 ∧
    (FfmpegX.calculateFrameIndices ⟨4, 1, 5⟩ ⟨some 2, none⟩).Nodup ∧
    (∀ x ∈ FfmpegX.calculateFrameIndices ⟨4, 1, 5⟩ ⟨some 2, none⟩,
      0 ≤ x ∧ x < ((4 : ℕ) : ℤ)) ∧
    (2 = 4 →
      (FfmpegX.calculateFrameIndices ⟨4, 1, 5⟩ ⟨some 2, none⟩).length = 4) :=
  C5_sample_by_total_count ⟨4, 1, 5⟩ 2 (by norm_num) (by norm_num)

/-- **C10.** Requesting more frames than the total clamps the request and
returns exactly the indices `0, …, totalFrameCount - 1`, each once. -/
theorem C10_overcount_clamps_to_all_frames (st : FfmpegX.ExtractorState) (n : ℕ)
    (hT : 0 < st.totalFrames) (hTn : st.totalFrames < n) :
    FfmpegX.calculateFrameIndices st ⟨some n, none⟩ =
      (List.range st.totalFrames).map (fun (i : ℕ) => (i : ℤ)) := by
  have hn0 : n ≠ 0 := by omega
  have hnodup : ((List.range st.totalFrames).map (fun (i : ℕ) => (i : ℤ))).Nodup :=
    List.Nodup.map (fun a b hab => by exact_mod_cast hab) (List.nodup_range _)
  have hcalc : FfmpegX.calculateFrameIndices st ⟨some n, none⟩ =
      FfmpegX.jsSetDedup (FfmpegX.byTotalIndices st.totalFrames n) := by
    simp [FfmpegX.calculateFrameIndices, FfmpegX.numTruthyNat, hn0]
  rw [hcalc, FfmpegX.byTotalIndices_full st.totalFrames n hT (le_of_lt hTn),
    FfmpegX.jsSetDedup_eq_self _ hnodup]

/-- Witness for C10: 3 total frames, 5 requested. -/
theorem C10_overcount_clamps_to_all_frames_witness :
    FfmpegX.calculateFrameIndices ⟨3, 1, 5⟩ ⟨some 5, none⟩ =
      (List.range 3).map (fun (i : ℕ) => (i : ℤ)) :=
  C10_overcount_clamps_to_all_frames ⟨3, 1, 5⟩ 5 (by norm_num) (by norm_num)

namespace FfmpegX

/-- The by-rate sampling as the spec's sentence states it, for comparison
with `byRateIndices` (this definition follows the spec's words, not the
source): every `round(sourceFps / targetFps)`-th frame starting at index 0
until exceeding the total frame count, i.e. the multiples of the rounded
step below `totalFrames`. -/
def specRoundStepIndices (totalFrames : ℕ) (sourceFps targetFps : ℚ) : List ℤ :=
  let s := round (sourceFps / targetFps)
  if 0 < s then
    (List.range ((totalFrames + s.toNat - 1) / s.toNat)).map fun (i : ℕ) => (i : ℤ) * s
  else []

/-- Membership in the by-rate index list: exactly the floors of the rational
multiples `i * (sourceFps / targetFps)` that stay below the frame count. -/
theorem mem_byRateIndices (T : ℕ) (src tgt : ℚ) (hpos : 0 < src / tgt) (x : ℤ) :
    x ∈ byRateIndices T src tgt ↔
      ∃ i : ℕ, (i : ℚ) * (src / tgt) < (T : ℚ) ∧ x = ⌊(i : ℚ) * (src / tgt)⌋ := by
  unfold byRateIndices
  rw [if_pos hpos]
  simp only [List.mem_map, List.mem_range]
  constructor
  · rintro ⟨i, hi, rfl⟩
    refine ⟨i, ?_, rfl⟩
    rw [Int.lt_toNat, Int.lt_ceil, lt_div_iff₀ hpos] at hi
    exact_mod_cast hi
  · rintro ⟨i, hi, rfl⟩
    refine ⟨i, ?_, rfl⟩
    rw [Int.lt_toNat, Int.lt_ceil, lt_div_iff₀ hpos]
    exact_mod_cast hi

end FfmpegX

/-- **C6 (counterexample).** For source rate 25, target rate 10 and 10 total
frames, the code samples indices `⌊i · 2.5⌋ = [0, 2, 5, 7]`, not the
multiples `[0, 3, 6, 9]` of the rounded step `round(25/10) = 3` that the
claim describes. -/
theorem C6_round_step_counterexample :
    FfmpegX.calculateFrameIndices ⟨10, 25, 5⟩ ⟨none, some 10⟩ = [0, 2, 5, 7] ∧
    FfmpegX.specRoundStepIndices 10 25 10 = [0, 3, 6, 9] ∧
    FfmpegX.calculateFrameIndices ⟨10, 25, 5⟩ ⟨none, some 10⟩ ≠
      FfmpegX.specRoundStepIndices 10 25 10 := by
  have h0 : (0 : ℚ) < 25 / 10 := by norm_num
  have hbr : FfmpegX.byRateIndices 10 25 10 = [0, 2, 5, 7] := by
    simp only [FfmpegX.byRateIndices]
    rw [if_pos h0]
    have hc : ⌈((10 : ℕ) : ℚ) / (25 / 10)⌉ = (4 : ℤ) := by push_cast; norm_num
    rw [hc, show ((4 : ℤ).toNat) = 4 from rfl, show List.range 4 = [0, 1, 2, 3] from rfl]
    simp only [List.map_cons, List.map_nil]
    norm_num
  have hsplit : FfmpegX.calculateFrameIndices ⟨10, 25, 5⟩ ⟨none, some 10⟩ =
      FfmpegX.jsSetDedup (FfmpegX.byRateIndices 10 25 10) := rfl
  have hcalc : FfmpegX.calculateFrameIndices ⟨10, 25, 5⟩ ⟨none, some 10⟩ = [0, 2, 5, 7] := by
    rw [hsplit, hbr]
    decide
  have hs : round ((25 : ℚ) / 10) = 3 := by
    rw [round_eq]
    norm_num
  have hspec : FfmpegX.specRoundStepIndices 10 25 10 = [0, 3, 6, 9] := by
    simp only [FfmpegX.specRoundStepIndices, hs]
    decide
  refine ⟨hcalc, hspec, ?_⟩
  rw [hcalc, hspec]
  decide

/-- **C6 (amended).** Sampling by a positive target rate returns, without
duplicates, exactly the indices `⌊i · (sourceFps / targetFps)⌋` for the
successive naturals `i` with `i · (sourceFps / targetFps)` below the total
frame count (when the ratio is a positive integer `s`, these are exactly the
multiples of `s` below the total frame count). -/
theorem C6_sample_by_rate_floor_multiples (st : FfmpegX.ExtractorState) (f : ℚ)
    (hpos : 0 < st.fps / f) :
    (FfmpegX.calculateFrameIndices st ⟨none, some f⟩).Nodup ∧
    (∀ x : ℤ, x ∈ FfmpegX.calculateFrameIndices st ⟨none, some f⟩ ↔
      ∃ i : ℕ, (i : ℚ) * (st.fps / f) < (st.totalFrames : ℚ) ∧
        x = ⌊(i : ℚ) * (st.fps / f)⌋) := by
  have hf : f ≠ 0 := by
    intro h0
    rw [h0, div_zero] at hpos
    exact lt_irrefl 0 hpos
  have hcalc : FfmpegX.calculateFrameIndices st ⟨none, some f⟩ =
      FfmpegX.jsSetDedup (FfmpegX.byRateIndices st.totalFrames st.fps f) := by
    simp [FfmpegX.calculateFrameIndices, FfmpegX.numTruthyNat, FfmpegX.numTruthyQ, hf]
  rw [hcalc]
  refine ⟨FfmpegX.jsSetDedup_nodup _, ?_⟩
  intro x
  rw [FfmpegX.mem_jsSetDedup]
  exact FfmpegX.mem_byRateIndices st.totalFrames st.fps f hpos x

/-- Witness for C6 (amended): at source rate 25, target rate 10, 10 frames,
index 2 is in the sample because `1 · 2.5 = 2.5 < 10` and `⌊2.5⌋ = 2`. -/
theorem C6_sample_by_rate_floor_multiples_witness :
    (FfmpegX.calculateFrameIndices ⟨10, 25, 5⟩ ⟨none, some 10⟩).Nodup ∧
    (∀ x : ℤ, x ∈ FfmpegX.calculateFrameIndices ⟨10, 25, 5⟩ ⟨none, some 10⟩ ↔
      ∃ i : ℕ, (i : ℚ) * ((25 : ℚ) / 10) < ((10 : ℕ) : ℚ) ∧
        x = ⌊(i : ℚ) * ((25 : ℚ) / 10)⌋) :=
  C6_sample_by_rate_floor_multiples ⟨10, 25, 5⟩ 10 (by norm_num)

/-- **C7.** The dual-seek split: the coarse input-side seek is
`max(0, t - k)`, the precise output-side offset is the remainder `t` minus
the coarse seek (so the two always sum to the target time and the coarse
seek is never negative); at `t = 10, k = 5` the split is `5 / 5`, and at
`t = 2, k = 5` the coarse seek clamps to `0` with precise offset `2`. -/
theorem C7_dual_seek_split :
    (∀ t k : ℚ, 0 ≤ t →
      FfmpegX.coarseSeekTime t k = max 0 (t - k) ∧
      FfmpegX.preciseSeekOffset t k = t - FfmpegX.coarseSeekTime t k ∧
      FfmpegX.coarseSeekTime t k + FfmpegX.preciseSeekOffset t k = t ∧
      0 ≤ FfmpegX.coarseSeekTime t k) ∧
    FfmpegX.coarseSeekTime 10 5 = 5 ∧ FfmpegX.preciseSeekOffset 10 5 = 5 ∧
    FfmpegX.coarseSeekTime 2 5 = 0 ∧ FfmpegX.preciseSeekOffset 2 5 = 2 := by
  refine ⟨?_, by norm_num [FfmpegX.coarseSeekTime], by
    norm_num [FfmpegX.preciseSeekOffset, FfmpegX.coarseSeekTime], by
    norm_num [FfmpegX.coarseSeekTime], by
    norm_num [FfmpegX.preciseSeekOffset, FfmpegX.coarseSeekTime]⟩
  intro t k ht
  refine ⟨rfl, rfl, ?_, le_max_left 0 _⟩
  rw [FfmpegX.preciseSeekOffset]
  ring

/-- Witness for C7: the universal part applied at `t = 10, k = 5`. -/
theorem C7_dual_seek_split_witness :
    FfmpegX.coarseSeekTime 10 5 = max 0 ((10 : ℚ) - 5) ∧
    FfmpegX.preciseSeekOffset 10 5 = 10 - FfmpegX.coarseSeekTime 10 5 ∧
    FfmpegX.coarseSeekTime 10 5 + FfmpegX.preciseSeekOffset 10 5 = 10 ∧
    (0 : ℚ) ≤ FfmpegX.coarseSeekTime 10 5 :=
  C7_dual_seek_split.1 10 5 (by norm_num)

namespace FfmpegX

/-- The numeric value of a string of decimal digit characters. -/
def digitsToNat (l : List Char) : ℕ :=
  l.foldl (fun acc c => acc * 10 + (c.toNat - 48)) 0

/-- JavaScript `parseInt(s, 10)` on an already-trimmed string, restricted to
the decimal forms the progress parser feeds it: an optional sign followed by
leading decimal digits, further characters ignored; `none` models `NaN`
(no digits at all, e.g. the empty string). -/
def jsParseInt (s : String) : Option ℤ :=
  let signRest : ℤ × List Char :=
    match s.data with
    | '-' :: r => (-1, r)
    | '+' :: r => (1, r)
    | r => (1, r)
  let digits := signRest.2.takeWhile Char.isDigit
  if digits = [] then none
  else some (signRest.1 * (digitsToNat digits : ℤ))

/-- JavaScript `parseFloat` restricted to plain decimal literals (optional
sign, integer digits, optional `.` and fraction digits, trailing characters
ignored), which covers every value the progress parser feeds it; `none`
models `NaN`. -/
def jsParseFloat (s : String) : Option ℚ :=
  let signRest : ℚ × List Char :=
    match s.data with
    | '-' :: r => (-1, r)
    | '+' :: r => (1, r)
    | r => (1, r)
  let intDigits := signRest.2.takeWhile Char.isDigit
  let afterInt := signRest.2.drop intDigits.length
  let fracDigits :=
    match afterInt with
    | '.' :: r => r.takeWhile Char.isDigit
    | _ => []
  if intDigits = [] ∧ fracDigits = [] then none
  else
    some (signRest.1 *
      ((digitsToNat intDigits : ℚ) + (digitsToNat fracDigits : ℚ) / (10 : ℚ) ^ fracDigits.length))

/-- One parsed progress snapshot (`ProgressData`).  For the numeric fields
the outer `Option` records whether the key occurred in the line and the
inner `Option` is the parse result (`none` standing for `NaN`). -/
structure ProgressData where
  frame : Option (Option ℤ) := none
  fps : Option (Option ℚ) := none
  q : Option (Option ℚ) := none
  size : Option String := none
  time : Option String := none
  bitrate : Option String := none
  speed : Option String := none
  raw : String
deriving DecidableEq, Repr

/-- Splitting a character list at every occurrence of a separator character:
the semantics of JavaScript `split(" ")` with a one-character separator,
keeping the empty segments that arise between consecutive separators. -/
def splitChars (sep : Char) : List Char → List (List Char)
  | [] => [[]]
  | c :: cs =>
    match splitChars sep cs with
    | [] => []
    | g :: gs => if c = sep then [] :: g :: gs else (c :: g) :: gs

/-- JavaScript `String.prototype.trim`: strip leading and trailing
whitespace. -/
def trimChars (l : List Char) : List Char :=
  ((l.dropWhile Char.isWhitespace).reverse.dropWhile Char.isWhitespace).reverse

/-- The first `"="`-separated part of a token, `item.split("=", 2)[0]`. -/
def splitEqKey (l : List Char) : List Char :=
  l.takeWhile fun c => c ≠ '='

/-- The second `"="`-separated part of a token, `item.split("=", 2)[1]`
(empty when the token has nothing between its first and second `=`). -/
def splitEqValue (l : List Char) : List Char :=
  ((l.drop (splitEqKey l).length).drop 1).takeWhile fun c => c ≠ '='

/-- JavaScript `String.prototype.startsWith`. -/
def jsStartsWith (s pat : String) : Bool :=
  s.data.take pat.data.length = pat.data

/-- One `key=value` token applied to the partial record (the `switch` inside
`parseProgress`); key and value are the first two `"="`-separated parts of
the token, as produced by `item.split("=", 2)`, both trimmed. -/
def applyProgressItem (p : ProgressData) (item : List Char) : ProgressData :=
  let key := String.mk (trimChars (splitEqKey item))
  let value := String.mk (trimChars (splitEqValue item))
  if key = "frame" then { p with frame := some (jsParseInt value) }
  else if key = "fps" then { p with fps := some (jsParseFloat value) }
  else if key = "q" then { p with q := some (jsParseFloat value) }
  else if key = "size" then { p with size := some value }
  else if key = "time" then { p with time := some value }
  else if key = "bitrate" then { p with bitrate := some value }
  else if key = "speed" then { p with speed := some value }
  else p

/-- `parseProgress`: a line qualifies only when it starts with `frame=`; the
single-space-split tokens containing `"="` are folded into the record; the
record is surfaced only when a truthy (captured and non-empty) time field is
present. -/
def parseProgress (line : String) : Option ProgressData :=
  if jsStartsWith line "frame=" = false then none
  else
    let items := (splitChars ' ' line.data).filter fun item => item.contains '='
    let p := items.foldl applyProgressItem { raw := line }
    match p.time with
    | some t => if t = "" then none else some p
    | none => none

/-- The stderr progress line of the spec's concrete parsing example. -/
def exampleProgressLine : String :=
  "frame=  120 fps=25.0 q=23.0 size=    256kB time=00:00:04.80 bitrate= 426.7kbits/s speed=0.98x"

end FfmpegX

set_option maxRecDepth 100000 in
/-- **C4 (evaluation at the claim's input).** On the spec's example line the
parser does emit a sample, with `fps = 25.0` and `time = "00:00:04.80"` as
claimed — but the frame field is `NaN` (`some none`), not `120`: splitting
on single spaces separates the token `frame=` from `120`, so `parseInt` runs
on the empty string.  A line with a time field but no `frame=` prefix, and
a `frame=`-prefixed line without a time field, both yield no sample. -/
theorem C4_example_line_frame_is_nan :
    FfmpegX.parseProgress FfmpegX.exampleProgressLine =
      some { frame := some none, fps := some (FfmpegX.jsParseFloat "25.0"),
             q := some (FfmpegX.jsParseFloat "23.0"),
             size := some "", time := some "00:00:04.80", bitrate := some "",
             speed := some "0.98x", raw := FfmpegX.exampleProgressLine } ∧
    FfmpegX.jsParseFloat "25.0" = some 25 ∧
    FfmpegX.jsParseFloat "23.0" = some 23 ∧
    (some (some (120 : ℤ)) : Option (Option ℤ)) ≠ some none ∧
    FfmpegX.parseProgress "fps=25.0 time=00:00:01.00" = none ∧
    FfmpegX.parseProgress "frame=  120 fps=25.0" = none := by
  refine ⟨rfl, ?_, ?_, by decide, rfl, rfl⟩
  · rw [show FfmpegX.jsParseFloat "25.0" =
      some ((1 : ℚ) * (((25 : ℕ) : ℚ) + ((0 : ℕ) : ℚ) / (10 : ℚ) ^ (1 : ℕ))) from rfl]
    norm_num
  · rw [show FfmpegX.jsParseFloat "23.0" =
      some ((1 : ℚ) * (((23 : ℕ) : ℚ) + ((0 : ℕ) : ℚ) / (10 : ℚ) ^ (1 : ℕ))) from rfl]
    norm_num

namespace FfmpegX

/-- `FfmpegXResult`: the accumulated stderr text plus the optional stdout
payload (bytes modelled as `List ℕ`), present only when non-empty. -/
structure FfmpegXResult where
  stderr : String
  output : Option (List ℕ)
deriving DecidableEq, Repr

/-- The rejection of `execute` on a non-zero exit: the design taxonomy's
`ExecutionError`, paired with the stderr that the `error` event carries. -/
structure ExecutionError where
  message : String
  stderr : String
deriving DecidableEq, Repr

/-- The `close` handler of `FfmpegX.execute`: on exit code 0, resolve with
the stderr text and `Buffer.concat(stdoutChunks)` (attached only when its
length is positive); on any other code, reject with an `ExecutionError`
carrying the accumulated stderr. -/
def onProcessClose (code : ℤ) (stdoutChunks : List (List ℕ)) (stderr : String) :
    Except ExecutionError FfmpegXResult :=
  if code = 0 then
    let outputBuffer := stdoutChunks.flatten
    .ok { stderr := stderr,
          output := if 0 < outputBuffer.length then some outputBuffer else none }
  else
    .error { message := "ffmpeg exited with code " ++ toString code, stderr := stderr }

/-- The per-frame extraction failure type (anything a rejected
`executeFfmpeg` promise can carry). -/
inductive ExtractFrameError where
  | err (msg : String)
deriving DecidableEq, Repr

/-- The continuation attached to each per-frame `executeFfmpeg` promise in
`VideoFrameExtractor.extract`: a fulfilled result maps to its output buffer
when present and non-empty, otherwise to `null`; a rejection is caught and
also mapped to `null`. -/
def frameSlot (outcome : Except ExtractFrameError FfmpegXResult) : Option (List ℕ) :=
  match outcome with
  | .error _ => none
  | .ok r =>
    match r.output with
    | some b => if 0 < b.length then some b else none
    | none => none

/-- The batch assembly of `extract`: `Promise.all` keeps dispatch order, so
the settled slots are the slot of each outcome in order; the final filter
keeps the non-null buffers. -/
def extractBatch (outcomes : List (Except ExtractFrameError FfmpegXResult)) :
    List (List ℕ) :=
  (outcomes.map frameSlot).filterMap id

theorem extractBatch_eq_filterMap (outcomes : List (Except ExtractFrameError FfmpegXResult)) :
    extractBatch outcomes = outcomes.filterMap frameSlot := by
  rw [extractBatch, List.filterMap_map]
  rfl

end FfmpegX

/-- **C3.** For the close handler of an execution: exit code 0 yields an
`ExecutionResult` whose stderr is the accumulated text and whose output
buffer is the concatenated stdout, present exactly when at least one byte
arrived; a non-zero code yields an `ExecutionError` carrying the stderr
accumulated so far; and the invocation resolves exactly when the code is 0
(never both outcomes). -/
theorem C3_exit_code_outcomes (code : ℤ) (chunks : List (List ℕ)) (err : String) :
    (code = 0 → ∃ r, FfmpegX.onProcessClose code chunks err = .ok r ∧
      r.stderr = err ∧
      (r.output.isSome ↔ 0 < chunks.flatten.length) ∧
      (∀ b, r.output = some b → b = chunks.flatten)) ∧
    (code ≠ 0 → ∃ e, FfmpegX.onProcessClose code chunks err = .error e ∧
      e.stderr = err) ∧
    ((∃ r, FfmpegX.onProcessClose code chunks err = .ok r) ↔ code = 0) ∧
    ¬((∃ r, FfmpegX.onProcessClose code chunks err = .ok r) ∧
      (∃ e, FfmpegX.onProcessClose code chunks err = .error e)) := by
  unfold FfmpegX.onProcessClose
  by_cases hc : code = 0
  · rw [if_pos hc]
    refine ⟨?_, fun h => absurd hc h, ?_, ?_⟩
    · intro _
      refine ⟨_, rfl, rfl, ?_, ?_⟩
      · by_cases hlen : 0 < chunks.flatten.length
        · simp [hlen]
        · simp [hlen]
      · intro b hb
        by_cases hlen : 0 < chunks.flatten.length
        · rw [if_pos hlen] at hb
          exact (Option.some.inj hb).symm
        · rw [if_neg hlen] at hb
          exact absurd hb (by simp)
    · exact ⟨fun _ => hc, fun _ => ⟨_, rfl⟩⟩
    · rintro ⟨⟨r, hr⟩, ⟨e, he⟩⟩
      rw [hr] at he
      exact absurd he (by simp)
  · rw [if_neg hc]
    refine ⟨fun h => absurd h hc, fun _ => ⟨_, rfl, rfl⟩, ?_, ?_⟩
    · constructor
      · rintro ⟨r, hr⟩
        exact absurd hr (by simp)
      · intro h
        exact absurd h hc
    · rintro ⟨⟨r, hr⟩, -⟩
      exact absurd hr (by simp)

/-- Witness for C3: exit code 0 with a 500-byte chunk on stdout resolves
with a buffer, and the buffer is the concatenated stdout. -/
theorem C3_exit_code_outcomes_witness :
    ∃ r, FfmpegX.onProcessClose 0 [List.replicate 500 7] "some log" = .ok r ∧
      r.stderr = "some log" ∧
      (r.output.isSome ↔ 0 < ([List.replicate 500 7].flatten).length) ∧
      (∀ b, r.output = some b → b = [List.replicate 500 7].flatten) :=
  (C3_exit_code_outcomes 0 [List.replicate 500 7] "some log").1 rfl

/-- **C8.** Per-frame outcomes degrade independently: a rejected frame or a
frame with an absent/empty buffer contributes `null` (an absent slot); the
batch result is exactly the non-null buffers in dispatch order
(`filterMap`); inserting a failed frame anywhere leaves the other frames'
buffers untouched (the batch never fails because one frame failed); and the
batch never returns more buffers than frames dispatched. -/
theorem C8_per_frame_failure_degrades :
    (∀ e, FfmpegX.frameSlot (.error e) = none) ∧
    (∀ (r : FfmpegX.FfmpegXResult) (b : List ℕ),
      FfmpegX.frameSlot (.ok r) = some b ↔ (r.output = some b ∧ 0 < b.length)) ∧
    (∀ outcomes, FfmpegX.extractBatch outcomes = outcomes.filterMap FfmpegX.frameSlot) ∧
    (∀ pre e post,
      FfmpegX.extractBatch (pre ++ .error e :: post) =
        FfmpegX.extractBatch pre ++ FfmpegX.extractBatch post) ∧
    (∀ outcomes, (FfmpegX.extractBatch outcomes).length ≤ outcomes.length) := by
  refine ⟨fun e => rfl, ?_, FfmpegX.extractBatch_eq_filterMap, ?_, ?_⟩
  · intro r b
    rcases hro : r.output with _ | b'
    · simp [FfmpegX.frameSlot, hro]
    · by_cases hb : 0 < b'.length
      · rw [FfmpegX.frameSlot]
        simp only [hro, if_pos hb, Option.some_inj]
        constructor
        · rintro rfl
          exact ⟨rfl, hb⟩
        · rintro ⟨h1, -⟩
          exact h1
      · rw [FfmpegX.frameSlot]
        simp only [hro, if_neg hb, Option.some.injEq]
        constructor
        · intro h
          exact absurd h (by simp)
        · rintro ⟨h1, hlen⟩
          rw [h1] at hb
          exact absurd hlen hb
  · intro pre e post
    rw [FfmpegX.extractBatch_eq_filterMap, FfmpegX.extractBatch_eq_filterMap,
      FfmpegX.extractBatch_eq_filterMap, List.filterMap_append]
    congr 1
  · intro outcomes
    rw [FfmpegX.extractBatch_eq_filterMap]
    exact List.length_filterMap_le _ _
